import Mathlib

/-!
Verification of the TBot gap/retracement detector (`bot.py`).

The Python source is shallowly embedded below: candles become records over
`ℚ` prices with timestamps as minutes (`Int`), the pandas scans become
structural recursions over index lists, and the global mutable state of the
collector loop (the dedup set and the "last cleared date" marker) becomes
explicit state passing.
-/

namespace TBot

/-- One OHLC price bar, mirroring the columns of the fetched DataFrame
(`Date`, `Open`, `High`, `Low`, `Close`, `Complete`).  `Date` is the
timestamp in minutes (local-exchange clock); prices are rationals. -/
structure Candle where
  Date : Int
  Open : ℚ
  High : ℚ
  Low : ℚ
  Close : ℚ
  Complete : Bool
deriving DecidableEq, Repr

/-- Positional row access `df.at[i, ...]`.  The scans below always index in
range; the default row is irrelevant to every theorem. -/
def nth (df : List Candle) (i : Nat) : Candle :=
  df.getD i ⟨0, 0, 0, 0, 0, true⟩

/-- Time of day in minutes, mirroring `df.at[i, 'Date'].time()`. -/
def tod (b : Candle) : Int :=
  b.Date % 1440

/-- `df['Date'].diff()` in minutes (first row's NaN dropped, as
`Series.median` skips it). -/
def timeDeltas (df : List Candle) : List ℚ :=
  List.zipWith (fun a b => ((b.Date - a.Date : Int) : ℚ)) df df.tail

/-- `pandas` median: sort, take the middle element, or the mean of the two
middle elements; `none` on an empty list (the all-NaN case). -/
def median (xs : List ℚ) : Option ℚ :=
  let s := List.insertionSort (fun a b => a ≤ b) xs
  let n := s.length
  if n = 0 then none
  else if n % 2 = 1 then s.get? (n / 2)
  else
    match s.get? (n / 2 - 1), s.get? (n / 2) with
    | some a, some b => some ((a + b) / 2)
    | _, _ => none

/-- The three interval-class booleans computed by `detect_ote` from the
median inter-candle interval; all `false` when the median is undefined
(fewer than two candles), matching NaN comparisons in Python. -/
structure ClassFlags where
  is_1hr_interval : Bool
  is_15m_or_lower : Bool
  is_4hr_interval : Bool
deriving DecidableEq, Repr

/-- `avg_interval = df['Time_Diff'].median()` and the three flag tests. -/
def classify (df : List Candle) : ClassFlags :=
  match median (timeDeltas df) with
  | none => ⟨false, false, false⟩
  | some m => ⟨decide (60 ≤ m ∧ m < 75), decide (m ≤ 15), decide (240 ≤ m)⟩

/-- The FVG-detection time window applied to the anchor bar `i-1`
(12:15–14:30 sub-hour, 07:00–14:30 hourly, unrestricted otherwise);
times in minutes: 735 = 12:15, 870 = 14:30, 420 = 07:00. -/
def fvgTimeValid (c : ClassFlags) (t : Int) : Bool :=
  if c.is_15m_or_lower then decide (735 ≤ t ∧ t ≤ 870)
  else if c.is_1hr_interval then decide (420 ≤ t ∧ t ≤ 870)
  else true

/-- The retracement time window applied to candidate bar `j`
(12:00–14:30 hourly, 12:15–14:30 sub-hour, 10:00–14:30 four-hourly,
unrestricted otherwise); 720 = 12:00, 600 = 10:00. -/
def retraceTimeValid (c : ClassFlags) (t : Int) : Bool :=
  if c.is_1hr_interval then decide (720 ≤ t ∧ t ≤ 870)
  else if c.is_15m_or_lower then decide (735 ≤ t ∧ t ≤ 870)
  else if c.is_4hr_interval then decide (600 ≤ t ∧ t ≤ 870)
  else true

/-- Gap direction. -/
inductive FvgType where
  | bullish
  | bearish
deriving DecidableEq, Repr

/-- One entry of `fvg_list`: `(fvg_type, fvg_high, fvg_low, fvg_date, fvg_idx)`.
Note the source's inverted field naming: for a bullish gap `fvg_high` holds
the *lower* boundary `prev.High` and `fvg_low` the *upper* boundary
`curr.Low`. -/
structure Fvg where
  ftype : FvgType
  fvg_high : ℚ
  fvg_low : ℚ
  fvg_date : Int
  fvg_idx : Nat
deriving DecidableEq, Repr

/-- The body of the FVG-detection loop at index `i`: compare bar `i-2`
against bar `i`, gate on the anchor bar `i-1` time of day, and emit the
bullish and/or bearish record exactly as the source appends to `fvg_list`. -/
def fvgAt (df : List Candle) (c : ClassFlags) (i : Nat) : List Fvg :=
  let prev := nth df (i - 2)
  let curr := nth df i
  let anchor := nth df (i - 1)
  let v := fvgTimeValid c (tod anchor)
  (if curr.Low > prev.High ∧ v = true then
    [⟨FvgType.bullish, prev.High, curr.Low, anchor.Date, i - 1⟩] else [])
  ++ (if curr.High < prev.Low ∧ v = true then
    [⟨FvgType.bearish, curr.High, prev.Low, anchor.Date, i - 1⟩] else [])

/-- `fvg_list` produced by `for i in range(2, len(df))`. -/
def fvgList (df : List Candle) (c : ClassFlags) : List Fvg :=
  (List.range' 2 (df.length - 2)).flatMap (fvgAt df c)

/-- The "moved away" inner scan over `k in range(fvg_idx + 1, j)`. -/
def movedAway (df : List Candle) (f : Fvg) (j : Nat) : Bool :=
  (List.range' (f.fvg_idx + 1) (j - (f.fvg_idx + 1))).any fun k =>
    match f.ftype with
    | FvgType.bullish => decide ((nth df k).High > f.fvg_low)
    | FvgType.bearish => decide ((nth df k).Low < f.fvg_high)

/-- The retrace test at candidate bar `j` (the body of the two final `if`s). -/
def retraceTest (df : List Candle) (f : Fvg) (j : Nat) : Bool :=
  match f.ftype with
  | FvgType.bullish => decide ((nth df j).Low ≤ f.fvg_low ∧ (nth df j).High ≥ f.fvg_high)
  | FvgType.bearish => decide ((nth df j).High ≥ f.fvg_high ∧ (nth df j).Low ≤ f.fvg_low)

/-- Candidate bar `j` survives all three gates of the retracement loop:
time-of-day window, moved-away scan, retrace test (in source order). -/
def qualifies (df : List Candle) (c : ClassFlags) (f : Fvg) (j : Nat) : Bool :=
  retraceTimeValid c (tod (nth df j)) && movedAway df f j && retraceTest df f j

/-- The retracement loop for one gap: first `j` in
`range(fvg_idx + 2, len(df))` passing all three gates (`break` on success). -/
def firstRetrace (df : List Candle) (c : ClassFlags) (f : Fvg) : Option Nat :=
  (List.range' (f.fvg_idx + 2) (df.length - (f.fvg_idx + 2))).find? (qualifies df c f)

/-- All retracement events of one cycle: each gap of `fvg_list` paired with
its first qualifying bar, when one exists. -/
def detectEvents (df : List Candle) (c : ClassFlags) : List (Fvg × Nat) :=
  (fvgList df c).filterMap fun f => (firstRetrace df c f).map fun j => (f, j)

/-- `detect_ote`: classify the series, detect the gaps, then scan each gap
for its retracement. -/
def detect_ote (df : List Candle) : List Fvg × List (Fvg × Nat) :=
  let c := classify df
  (fvgList df c, detectEvents df c)

/-- The specification's boundary naming (§4.2): for a bullish gap
`lowerBound = prev.High` (stored in `fvg_high`), for a bearish gap
`lowerBound = prev.Low` (stored in `fvg_low`). -/
def lowerBound (f : Fvg) : ℚ :=
  match f.ftype with
  | FvgType.bullish => f.fvg_high
  | FvgType.bearish => f.fvg_low

/-- The specification's boundary naming (§4.2): for a bullish gap
`upperBound = curr.Low` (stored in `fvg_low`), for a bearish gap
`upperBound = curr.High` (stored in `fvg_high`). -/
def upperBound (f : Fvg) : ℚ :=
  match f.ftype with
  | FvgType.bullish => f.fvg_low
  | FvgType.bearish => f.fvg_high

/-- The dedup key collected by `run_collector`:
`(symbol, tf, str(row["FVG_Date"]))`, the date rendered here as its
minute timestamp. -/
abbrev DedupKey := String × String × Int

/-- The dedup filter of one collection pass: the fold of
`if key not in seen_retracements: seen_retracements.add(key);
retracement_hits.append(...)` over the detected keys, returning the
updated seen-set together with the batch of newly reported keys in
detection order. -/
def dedupPass : List DedupKey → List DedupKey → List DedupKey × List DedupKey
  | seen, [] => (seen, [])
  | seen, k :: rest =>
    if k ∈ seen then dedupPass seen rest
    else
      let r := dedupPass (k :: seen) rest
      (r.1, k :: r.2)

/-- Several consecutive collection passes sharing the process-wide
`seen_retracements` set (no clear in between); yields each pass's
notified batch. -/
def runPasses : List DedupKey → List (List DedupKey) → List (List DedupKey)
  | _, [] => []
  | seen, d :: ds =>
    let r := dedupPass seen d
    r.2 :: runPasses r.1 ds

/-- `send_telegram_message`: best effort — returns the delivered payload on
success and `none` on failure, never an error (the `except` swallows it). -/
def send_telegram_message (delivered : Bool) (hits : List DedupKey) : Option (List DedupKey) :=
  if delivered then some hits else none

/-- The tail of `run_collector`: dedup the detected keys (mutating the
seen-set at detection time), then, if the batch is non-empty, attempt one
combined notification whose success or failure leaves the state untouched. -/
def run_collector_pass (seen : List DedupKey) (detected : List DedupKey)
    (delivered : Bool) : List DedupKey × Option (List DedupKey) :=
  let r := dedupPass seen detected
  (r.1, if r.2.isEmpty then none else send_telegram_message delivered r.2)

/-- One observation of the local (Europe/London) clock by the monitor loop:
weekday (Monday = 0), hour of day, and an ordinal for the calendar date. -/
structure Tick where
  weekday : Nat
  hour : Nat
  date : Int
deriving DecidableEq, Repr

/-- `check_and_clear_database`: skip weekends; clear once the hour reaches
15 provided the marker does not already hold today's date; returns the new
marker and whether `clear_database` ran. -/
def check_and_clear_database (last : Option Int) (t : Tick) : Option Int × Bool :=
  if 5 ≤ t.weekday then (last, false)
  else if 15 ≤ t.hour ∧ last ≠ some t.date then (some t.date, true)
  else (last, false)

/-- The clear decisions over a sequence of loop ticks, threading the
`last_cleared_date` marker. -/
def clearFlags : Option Int → List Tick → List Bool
  | _, [] => []
  | last, t :: ts =>
    let r := check_and_clear_database last t
    r.2 :: clearFlags r.1 ts

/-- Specification-side definition (§4.5 in the spec's words): the clear
fires exactly on the first tick whose hour has reached 15, and on no other
tick of the sequence. -/
def firstHotFlags : List Tick → List Bool
  | [] => []
  | t :: ts =>
    if 15 ≤ t.hour then true :: ts.map (fun _ => false)
    else false :: firstHotFlags ts

/-- The observable fate of one `(symbol, timeframe)` pair inside
`run_collector`'s loop: `fetchEmpty` covers both an empty provider answer
and a fetch error (which `get_candles` converts to an empty frame);
`detectRaises` is an exception inside `detect_ote`/formatting (caught, the
OTE text replaced by an error marker); `persistRaises` is an exception in
`upsert_snapshot` (outside any `try`). -/
structure PairTask where
  label : String
  fetchEmpty : Bool
  detectRaises : Bool
  persistRaises : Bool
deriving DecidableEq, Repr

/-- The pair loop of `run_collector`: empty frames are skipped, detection
errors still produce a snapshot write (with the error marker flag), and an
exception escaping `upsert_snapshot` aborts the remaining pairs.  Returns
the successful writes `(label, oteTextIsErrorMarker)` in order, and whether
the loop was aborted by an uncaught exception. -/
def runPairs : List PairTask → List (String × Bool) × Bool
  | [] => ([], false)
  | p :: rest =>
    if p.fetchEmpty then runPairs rest
    else if p.persistRaises then ([], true)
    else
      let r := runPairs rest
      ((p.label, p.detectRaises) :: r.1, r.2)

/-- `get_count_since_midnight`: the ceiling of the seconds elapsed since
*UTC* midnight divided by the granularity in seconds.  `nowUtcSec` is the
current UTC time in whole seconds since some UTC midnight. -/
def get_count_since_midnight (granularity_mins : Nat) (nowUtcSec : Nat) : Nat :=
  (nowUtcSec % 86400 + granularity_mins * 60 - 1) / (granularity_mins * 60)

/-- The `{"M15": 15, "H1": 60, "H4": 240}` lookup of `run_collector`. -/
def tfMinutes (tf : String) : Nat :=
  if tf = "M15" then 15 else if tf = "H1" then 60 else 240

/-- `count = 8 if tf == "H4" else get_count_since_midnight(minutes)`. -/
def pairCount (tf : String) (nowUtcSec : Nat) : Nat :=
  if tf = "H4" then 8 else get_count_since_midnight (tfMinutes tf) nowUtcSec

/-- Modelled from the spec: the candle count "since local midnight" that
§3 and C8 describe, for a local-exchange (Europe/London) clock sitting
`offsetSec` seconds ahead of UTC (3600 during British Summer Time, 0 in
winter).  The code has no such local-midnight computation; this definition
follows the spec's words for comparison. -/
def countSinceLocalMidnight (granularity_mins : Nat) (nowUtcSec : Nat)
    (offsetSec : Nat) : Nat :=
  ((nowUtcSec + offsetSec) % 86400 + granularity_mins * 60 - 1) / (granularity_mins * 60)

/-! ### Concrete inputs used by counterexamples and witnesses -/

/-- A five-bar series (timestamps 100 minutes apart, so the class is
unrestricted): a bullish gap anchors at bar 1 (bar 0 High 10 < bar 2
Low 20), price is already away at bar 2, and bar 3 (Low 14, High 16)
re-enters the gap's range without covering it. -/
def exA : List Candle :=
  [⟨0, 5, 10, 0, 5, true⟩,
   ⟨100, 6, 19, 5, 6, true⟩,
   ⟨200, 21, 30, 20, 21, true⟩,
   ⟨300, 15, 16, 14, 15, true⟩,
   ⟨400, 15, 25, 14, 15, true⟩]

/-- The single gap detected on `exA`. -/
def exAgap : Fvg := ⟨FvgType.bullish, 10, 20, 100, 1⟩

/-- The class flags of a series whose median interval matches no class
(the unrestricted windows). -/
def flagsOther : ClassFlags := ⟨false, false, false⟩

/-- A five-bar series like `exA` but where no bar between the anchor and
the candidates ever exceeds the gap's upper boundary 20 (bar 2 is the
degenerate bar 20/20, bar 3 peaks at 15), although bars 2 and 3 do exceed
the lower boundary 10. -/
def exB : List Candle :=
  [⟨0, 5, 10, 0, 5, true⟩,
   ⟨100, 6, 19, 5, 6, true⟩,
   ⟨200, 20, 20, 20, 20, true⟩,
   ⟨300, 13, 15, 12, 13, true⟩,
   ⟨400, 10, 25, 9, 10, true⟩]

/-- The single gap detected on `exB`. -/
def exBgap : Fvg := ⟨FvgType.bullish, 10, 20, 100, 1⟩

/-- A sample dedup key. -/
def key0 : DedupKey := (("EUR_USD"), ("M15"), 735)

/-! ### Helper lemmas -/

theorem nth_mem (df : List Candle) (i : Nat) (h : i < df.length) : nth df i ∈ df := by
  rw [nth, List.getD_eq_getElem _ _ h]
  exact List.getElem_mem h

theorem find?_range'_spec (p : Nat → Bool) :
    ∀ (n s j : Nat), (List.range' s n).find? p = some j →
      s ≤ j ∧ j < s + n ∧ p j = true ∧ ∀ m, s ≤ m → m < j → ¬p m = true := by
  intro n
  induction n with
  | zero => intro s j h; simp [List.range'] at h
  | succ n ih =>
    intro s j h
    rw [List.range'_succ] at h
    by_cases hp : p s = true
    · rw [List.find?_cons_of_pos _ hp] at h
      injection h with h
      subst h
      exact ⟨Nat.le_refl _, by omega, hp,
        fun m h1 h2 => absurd (Nat.lt_of_le_of_lt h1 h2) (Nat.lt_irrefl _)⟩
    · rw [List.find?_cons_of_neg _ hp] at h
      obtain ⟨h1, h2, h3, h4⟩ := ih (s + 1) j h
      refine ⟨by omega, by omega, h3, ?_⟩
      intro m hm1 hm2
      rcases Nat.eq_or_lt_of_le hm1 with heq | hlt
      · rw [← heq]; exact hp
      · exact h4 m hlt hm2

theorem mem_ite_singleton {P : Prop} [Decidable P] {a b : Fvg} :
    (a ∈ if P then [b] else []) ↔ P ∧ a = b := by
  split_ifs with h <;> simp [h]

theorem clearFlags_marked (d : Int) :
    ∀ ts : List Tick, (∀ t ∈ ts, t.date = d) →
      clearFlags (some d) ts = ts.map fun _ => false := by
  intro ts
  induction ts with
  | nil => intro _; rfl
  | cons t ts ih =>
    intro h
    have ht := h t (List.mem_cons_self t ts)
    have hstep : check_and_clear_database (some d) t = (some d, false) := by
      unfold check_and_clear_database
      split_ifs with h1 h2
      · rfl
      · exact absurd (by rw [ht]) h2.2
      · rfl
    show (check_and_clear_database (some d) t).2 ::
        clearFlags (check_and_clear_database (some d) t).1 ts = _
    rw [hstep]
    simp only [List.map_cons]
    exact congrArg _ (ih fun x hx => h x (List.mem_cons_of_mem _ hx))

theorem clearFlags_weekday (d : Int) (w : Nat) (hw : w < 5) :
    ∀ (ts : List Tick) (last : Option Int), (∀ t ∈ ts, t.date = d ∧ t.weekday = w) →
      last ≠ some d → clearFlags last ts = firstHotFlags ts := by
  intro ts
  induction ts with
  | nil => intro _ _ _; rfl
  | cons t ts ih =>
    intro last h hlast
    obtain ⟨htd, htw⟩ := h t (List.mem_cons_self t ts)
    have hrest : ∀ x ∈ ts, x.date = d ∧ x.weekday = w :=
      fun x hx => h x (List.mem_cons_of_mem _ hx)
    by_cases hh : 15 ≤ t.hour
    · have hstep : check_and_clear_database last t = (some t.date, true) := by
        unfold check_and_clear_database
        rw [if_neg (by omega), if_pos ⟨hh, by rw [htd]; exact hlast⟩]
      show (check_and_clear_database last t).2 ::
          clearFlags (check_and_clear_database last t).1 ts = _
      rw [hstep]
      show true :: clearFlags (some t.date) ts = firstHotFlags (t :: ts)
      rw [htd, clearFlags_marked d ts fun x hx => (hrest x hx).1]
      show _ = if 15 ≤ t.hour then true :: ts.map (fun _ => false) else _
      rw [if_pos hh]
    · have hstep : check_and_clear_database last t = (last, false) := by
        unfold check_and_clear_database
        split_ifs with h1 h2
        · rfl
        · exact absurd h2.1 hh
        · rfl
      show (check_and_clear_database last t).2 ::
          clearFlags (check_and_clear_database last t).1 ts = _
      rw [hstep]
      show false :: clearFlags last ts = firstHotFlags (t :: ts)
      rw [ih last hrest hlast]
      show _ = if 15 ≤ t.hour then true :: ts.map (fun _ => false) else false :: firstHotFlags ts
      rw [if_neg hh]

theorem clearFlags_weekend :
    ∀ (ts : List Tick) (last : Option Int), (∀ t ∈ ts, 5 ≤ t.weekday) →
      clearFlags last ts = ts.map fun _ => false := by
  intro ts
  induction ts with
  | nil => intro _ _; rfl
  | cons t ts ih =>
    intro last h
    have hstep : check_and_clear_database last t = (last, false) := by
      unfold check_and_clear_database
      rw [if_pos (h t (List.mem_cons_self t ts))]
    show (check_and_clear_database last t).2 ::
        clearFlags (check_and_clear_database last t).1 ts = _
    rw [hstep]
    simp only [List.map_cons]
    exact congrArg _ (ih last fun x hx => h x (List.mem_cons_of_mem _ hx))

theorem ceilDiv_bounds (b s : Nat) (hb : 0 < b) (hs : 0 < s) :
    b * ((s + b - 1) / b - 1) < s ∧ s ≤ b * ((s + b - 1) / b) := by
  have hdm := Nat.div_add_mod (s + b - 1) b
  have hmod : (s + b - 1) % b < b := Nat.mod_lt _ hb
  rcases hq : (s + b - 1) / b with _ | qq
  · rw [hq] at hdm
    omega
  · rw [hq] at hdm
    rw [Nat.mul_succ] at hdm
    constructor
    · show b * qq < s
      omega
    · rw [Nat.mul_succ]
      omega

/-! ### The claims -/

/-- C9: on any series whose bars all satisfy `Low ≤ High`, no scan index can
satisfy the bullish condition `curr.Low > (i-2).High` and the bearish
condition `curr.High < (i-2).Low` at once, so each three-bar comparison
emits at most one gap record. -/
theorem no_dual_flag_c9 (df : List Candle) (c : ClassFlags) (i : Nat)
    (h2 : 2 ≤ i) (hlen : i < df.length) (hLH : ∀ b ∈ df, b.Low ≤ b.High) :
    ¬((nth df i).Low > (nth df (i - 2)).High ∧ (nth df i).High < (nth df (i - 2)).Low) ∧
      (fvgAt df c i).length ≤ 1 := by
  have hi : (nth df i).Low ≤ (nth df i).High := hLH _ (nth_mem df i hlen)
  have hi2 : (nth df (i - 2)).Low ≤ (nth df (i - 2)).High :=
    hLH _ (nth_mem df (i - 2) (by omega))
  have hnot : ¬((nth df i).Low > (nth df (i - 2)).High ∧
      (nth df i).High < (nth df (i - 2)).Low) := by
    rintro ⟨hbull, hbear⟩
    exact absurd (lt_trans (lt_of_le_of_lt hi hbear) (lt_of_le_of_lt hi2 hbull))
      (lt_irrefl _)
  refine ⟨hnot, ?_⟩
  simp only [fvgAt, List.length_append]
  split_ifs with hA hB hB <;> simp_all

/-- C9 witness: the hypotheses hold on the concrete series `exA` at scan
index 2, where only a bullish gap is emitted. -/
theorem c9_witness :
    ¬((nth exA 2).Low > (nth exA 0).High ∧ (nth exA 2).High < (nth exA 0).Low) ∧
      (fvgAt exA flagsOther 2).length ≤ 1 :=
  no_dual_flag_c9 exA flagsOther 2 (by decide) (by decide) (by decide)

/-- C6: over any run of loop ticks that share one weekday calendar date,
with the marker not yet holding that date, the database clear fires exactly
on the first tick whose hour has reached 15 and on no other tick; on a
Saturday or Sunday it never fires. -/
theorem daily_reset_c6 (last : Option Int) (d : Int) (w : Nat) (ts : List Tick)
    (hts : ∀ t ∈ ts, t.date = d ∧ t.weekday = w) (hlast : last ≠ some d) :
    (w < 5 → clearFlags last ts = firstHotFlags ts) ∧
      (5 ≤ w → clearFlags last ts = ts.map fun _ => false) := by
  constructor
  · intro hw
    exact clearFlags_weekday d w hw ts last hts hlast
  · intro hw
    exact clearFlags_weekend ts last fun t ht => (hts t ht).2 ▸ hw

/-- C6 witness: three Wednesday ticks at 14:xx, 15:xx, 16:xx on one date
clear exactly once, at the second tick. -/
theorem c6_witness : clearFlags none [⟨2, 14, 40⟩, ⟨2, 15, 40⟩, ⟨2, 16, 40⟩] =
    firstHotFlags [⟨2, 14, 40⟩, ⟨2, 15, 40⟩, ⟨2, 16, 40⟩] :=
  (daily_reset_c6 none 40 2 [⟨2, 14, 40⟩, ⟨2, 15, 40⟩, ⟨2, 16, 40⟩]
    (by decide) (by decide)).1 (by decide)

/-- C7 counterexample: a snapshot-write (persistence) failure on the first
pair aborts the loop — the second, healthy pair is never fetched, detected
or written, contradicting the claim that a persistence failure "does not
prevent the remaining pairs of the same cycle". -/
theorem c7_counterexample :
    runPairs [⟨("A"), false, false, true⟩, ⟨("B"), false, false, false⟩] = ([], true) := by
  decide

/-- C7 as amended: fetch failures (empty frames) and detection failures are
isolated per pair — with no persistence failure every non-empty pair is
written, detection errors merely flagging that pair's snapshot — but a
persistence failure propagates out of the loop and the pairs after it are
not processed. -/
theorem pair_isolation_c7 (ps : List PairTask) :
    ((∀ p ∈ ps, p.persistRaises = false) →
      runPairs ps =
        ((ps.filter fun p => !p.fetchEmpty).map fun p => (p.label, p.detectRaises), false)) ∧
    (∀ pre p post, ps = pre ++ p :: post → p.fetchEmpty = false → p.persistRaises = true →
      (∀ q ∈ pre, q.persistRaises = false) →
      runPairs ps =
        ((pre.filter fun q => !q.fetchEmpty).map fun q => (q.label, q.detectRaises), true)) := by
  constructor
  · induction ps with
    | nil => intro _; rfl
    | cons p rest ih =>
      intro h
      have hp := h p (List.mem_cons_self p rest)
      have hrest := ih fun q hq => h q (List.mem_cons_of_mem _ hq)
      by_cases hf : p.fetchEmpty
      · show (if p.fetchEmpty then runPairs rest else _) = _
        rw [if_pos hf, hrest, List.filter_cons]
        simp [hf]
      · show (if p.fetchEmpty then _ else if p.persistRaises then _ else _) = _
        rw [if_neg hf, if_neg (by rw [hp]; exact Bool.false_ne_true), List.filter_cons]
        have hf2 : (!p.fetchEmpty) = true := by simp [hf]
        rw [if_pos hf2, List.map_cons, hrest]
  · intro pre
    induction pre generalizing ps with
    | nil =>
      intro p post hps hf hpr _
      subst hps
      show (if p.fetchEmpty then _ else if p.persistRaises then _ else _) = _
      rw [if_neg (by rw [hf]; exact Bool.false_ne_true), if_pos hpr]
      rfl
    | cons q pre ih =>
      intro p post hps hf hpr hpre
      subst hps
      have hq := hpre q (List.mem_cons_self q pre)
      have hrest := ih (pre ++ p :: post) p post rfl hf hpr
        fun x hx => hpre x (List.mem_cons_of_mem _ hx)
      by_cases hfq : q.fetchEmpty
      · show (if q.fetchEmpty then runPairs (pre ++ p :: post) else _) = _
        rw [if_pos hfq, hrest, List.filter_cons]
        simp [hfq]
      · show (if q.fetchEmpty then _ else if q.persistRaises then _ else _) = _
        rw [if_neg hfq, if_neg (by rw [hq]; exact Bool.false_ne_true), List.filter_cons]
        have hf2 : (!q.fetchEmpty) = true := by simp [hfq]
        rw [if_pos hf2, List.map_cons]
        show ((q.label, q.detectRaises) :: (runPairs (pre ++ p :: post)).1,
          (runPairs (pre ++ p :: post)).2) = _
        rw [hrest]

/-- C7 witness: with no persistence failure, a fetch-failed pair is skipped
and a detection-failed pair is still written (error-flagged); with a
persistence failure in the middle, the earlier pair is written and the
later one is lost. -/
theorem c7_witness :
    runPairs [⟨("A"), true, false, false⟩, ⟨("B"), false, true, false⟩] =
      ([(("B"), true)], false) ∧
    runPairs [⟨("A"), false, false, false⟩, ⟨("C"), false, false, true⟩,
        ⟨("D"), false, false, false⟩] = ([(("A"), false)], true) :=
  ⟨(pair_isolation_c7 [⟨("A"), true, false, false⟩, ⟨("B"), false, true, false⟩]).1
      (by decide),
   (pair_isolation_c7 [⟨("A"), false, false, false⟩, ⟨("C"), false, false, true⟩,
        ⟨("D"), false, false, false⟩]).2
      [⟨("A"), false, false, false⟩] ⟨("C"), false, false, true⟩
      [⟨("D"), false, false, false⟩] rfl rfl rfl (by decide)⟩

/-- C8 counterexample: at 23:30 UTC on a British-Summer-Time day
(`nowUtcSec = 84600`, local clock 3600 s ahead), the code requests
`ceil(84600 / 900) = 94` M15 candles, while the claim's count since *local*
(Europe/London) midnight — then 00:30 — would be 2. -/
theorem c8_counterexample :
    pairCount ("M15") 84600 = 94 ∧ countSinceLocalMidnight 15 84600 3600 = 2 ∧
      (94 : Nat) ≠ 2 := by
  decide

/-- C8 as amended: for M15 and H1 the requested count is the number of
granularity-length bars since *UTC* midnight — the ceiling of the elapsed
UTC seconds over the granularity in seconds, pinned between the two
adjacent bar multiples — and for H4 it is the constant 8. -/
theorem fetch_count_c8 (now : Nat) :
    (pairCount ("M15") now = get_count_since_midnight 15 now ∧
      (now % 86400 = 0 → pairCount ("M15") now = 0) ∧
      (0 < now % 86400 →
        900 * (pairCount ("M15") now - 1) < now % 86400 ∧
          now % 86400 ≤ 900 * pairCount ("M15") now)) ∧
    (pairCount ("H1") now = get_count_since_midnight 60 now ∧
      (now % 86400 = 0 → pairCount ("H1") now = 0) ∧
      (0 < now % 86400 →
        3600 * (pairCount ("H1") now - 1) < now % 86400 ∧
          now % 86400 ≤ 3600 * pairCount ("H1") now)) ∧
    pairCount ("H4") now = 8 := by
  have hm : pairCount ("M15") now = (now % 86400 + 900 - 1) / 900 := rfl
  have hh : pairCount ("H1") now = (now % 86400 + 3600 - 1) / 3600 := rfl
  refine ⟨⟨rfl, ?_, ?_⟩, ⟨rfl, ?_, ?_⟩, rfl⟩
  · intro h0
    rw [hm, h0]
  · intro hpos
    rw [hm]
    exact ceilDiv_bounds 900 (now % 86400) (by omega) hpos
  · intro h0
    rw [hh, h0]
  · intro hpos
    rw [hh]
    exact ceilDiv_bounds 3600 (now % 86400) (by omega) hpos

/-- C8 witness: the amended bounds evaluated at 23:30 UTC. -/
theorem c8_witness :
    900 * (pairCount ("M15") 84600 - 1) < 84600 % 86400 ∧
      84600 % 86400 ≤ 900 * pairCount ("M15") 84600 :=
  (fetch_count_c8 84600).1.2.2 (by decide)

theorem dedupPass_seen_sub (k : DedupKey) :
    ∀ (det seen : List DedupKey), k ∈ seen → k ∈ (dedupPass seen det).1 := by
  intro det
  induction det with
  | nil => intro seen h; exact h
  | cons a rest ih =>
    intro seen h
    show k ∈ (if a ∈ seen then dedupPass seen rest else _).1
    split_ifs with ha
    · exact ih seen h
    · exact ih (a :: seen) (List.mem_cons_of_mem _ h)

theorem dedupPass_mem_det (k : DedupKey) :
    ∀ (det seen : List DedupKey), k ∈ det → k ∈ (dedupPass seen det).1 := by
  intro det
  induction det with
  | nil => intro seen h; cases h
  | cons a rest ih =>
    intro seen h
    show k ∈ (if a ∈ seen then dedupPass seen rest else _).1
    rcases List.mem_cons.mp h with rfl | hrest
    · split_ifs with ha
      · exact dedupPass_seen_sub k rest seen ha
      · exact dedupPass_seen_sub k rest (k :: seen) (List.mem_cons_self k seen)
    · split_ifs with ha
      · exact ih seen hrest
      · exact ih (a :: seen) hrest

theorem dedupPass_hits_zero (k : DedupKey) :
    ∀ (det seen : List DedupKey), k ∈ seen →
      List.count k (dedupPass seen det).2 = 0 := by
  intro det
  induction det with
  | nil => intro seen _; rfl
  | cons a rest ih =>
    intro seen h
    show List.count k (if a ∈ seen then dedupPass seen rest else _).2 = 0
    split_ifs with ha
    · exact ih seen h
    · have hne : a ≠ k := fun he => ha (he ▸ h)
      show List.count k (a :: (dedupPass (a :: seen) rest).2) = 0
      rw [List.count_cons, ih (a :: seen) (List.mem_cons_of_mem _ h)]
      simp [hne]

theorem dedupPass_hits_le (k : DedupKey) :
    ∀ (det seen : List DedupKey), List.count k (dedupPass seen det).2 ≤ 1 := by
  intro det
  induction det with
  | nil => intro seen; simp [dedupPass]
  | cons a rest ih =>
    intro seen
    show List.count k (if a ∈ seen then dedupPass seen rest else _).2 ≤ 1
    split_ifs with ha
    · exact ih seen
    · show List.count k (a :: (dedupPass (a :: seen) rest).2) ≤ 1
      rw [List.count_cons]
      by_cases hk : a = k
      · rw [dedupPass_hits_zero k rest (a :: seen) (hk ▸ List.mem_cons_self a seen)]
        simp [hk]
      · have := ih (a :: seen)
        simp [hk]
        omega

theorem dedupPass_hits_seen (k : DedupKey) :
    ∀ (det seen : List DedupKey), k ∈ (dedupPass seen det).2 →
      k ∈ (dedupPass seen det).1 := by
  intro det
  induction det with
  | nil => intro seen h; cases h
  | cons a rest ih =>
    intro seen h
    revert h
    show k ∈ (if a ∈ seen then dedupPass seen rest else _).2 →
      k ∈ (if a ∈ seen then dedupPass seen rest else _).1
    split_ifs with ha
    · exact ih seen
    · intro h
      rcases List.mem_cons.mp h with rfl | hh
      · exact dedupPass_seen_sub k rest (k :: seen) (List.mem_cons_self k seen)
      · exact ih (a :: seen) hh

theorem runPasses_zero (k : DedupKey) :
    ∀ (ps : List (List DedupKey)) (seen : List DedupKey), k ∈ seen →
      List.count k (runPasses seen ps).flatten = 0 := by
  intro ps
  induction ps with
  | nil => intro seen _; rfl
  | cons d ds ih =>
    intro seen h
    show List.count k ((dedupPass seen d).2 :: runPasses (dedupPass seen d).1 ds).flatten = 0
    rw [List.flatten_cons, List.count_append, dedupPass_hits_zero k d seen h,
      ih (dedupPass seen d).1 (dedupPass_seen_sub k d seen h)]

/-- C5: across any run of collection passes between two clears of the dedup
store, a given key appears in the notified batches at most once in total;
in particular two consecutive passes both detecting a fresh key notify it
only on the first pass. -/
theorem dedup_once_c5 (seen : List DedupKey) (passes : List (List DedupKey)) (k : DedupKey) :
    List.count k (runPasses seen passes).flatten ≤ 1 ∧
      (k ∉ seen → runPasses seen [[k], [k]] = [[k], []]) := by
  constructor
  · induction passes generalizing seen with
    | nil => simp [runPasses]
    | cons d ds ih =>
      show List.count k ((dedupPass seen d).2 :: runPasses (dedupPass seen d).1 ds).flatten ≤ 1
      rw [List.flatten_cons, List.count_append]
      by_cases hk : k ∈ (dedupPass seen d).2
      · rw [runPasses_zero k ds (dedupPass seen d).1 (dedupPass_hits_seen k d seen hk)]
        have := dedupPass_hits_le k d seen
        omega
      · rw [List.count_eq_zero.mpr hk]
        have := ih (dedupPass seen d).1
        omega
  · intro hk
    show (dedupPass seen [k]).2 :: runPasses (dedupPass seen [k]).1 [[k]] = [[k], []]
    have h1 : dedupPass seen [k] = (k :: seen, [k]) := by
      show (if k ∈ seen then dedupPass seen [] else _) = _
      rw [if_neg hk]
      rfl
    rw [h1]
    show [k] :: (dedupPass (k :: seen) [k]).2 :: runPasses (dedupPass (k :: seen) [k]).1 [] = _
    have h2 : dedupPass (k :: seen) [k] = (k :: seen, []) := by
      show (if k ∈ k :: seen then dedupPass (k :: seen) [] else _) = _
      rw [if_pos (List.mem_cons_self k seen)]
      rfl
    rw [h2]
    rfl

/-- C5 witness: the two-consecutive-passes scenario at a concrete key. -/
theorem c5_witness : runPasses [] [[key0], [key0]] = [[key0], []] :=
  (dedup_once_c5 [] [[key0], [key0]] key0).2 (by decide)

/-- C10: the seen-set produced by a collection pass is updated at detection
time and is independent of whether the end-of-pass notification is
delivered (`send_telegram_message` swallows failures); every detected key
lands in the seen-set, and is therefore absent from the notified batch of
every later pass before the next clear — even when its own notification
failed. -/
theorem seen_before_notify_c10 (seen det : List DedupKey) (b1 b2 : Bool)
    (k : DedupKey) (passes : List (List DedupKey)) :
    (run_collector_pass seen det b1).1 = (run_collector_pass seen det b2).1 ∧
      (k ∈ det → k ∈ (run_collector_pass seen det b1).1) ∧
      (k ∈ det →
        List.count k (runPasses (run_collector_pass seen det b1).1 passes).flatten = 0) := by
  refine ⟨rfl, ?_, ?_⟩
  · intro hk
    exact dedupPass_mem_det k det seen hk
  · intro hk
    exact runPasses_zero k passes _ (dedupPass_mem_det k det seen hk)

/-- C10 witness: a key whose notification failed (`delivered = false`) is
still seen and never re-notified. -/
theorem c10_witness :
    List.count key0 (runPasses (run_collector_pass [] [key0] false).1 [[key0]]).flatten = 0 :=
  (seen_before_notify_c10 [] [key0] false true key0 [[key0]]).2.2 (by decide)

/-- C1 counterexample: on `exA`, a bullish gap with the spec's boundaries
`(lowerBound, upperBound) = (10, 20)` emits its retracement at bar 3
(Low 14, High 16), whose range does *not* cover the whole gap — the claim's
bullish test `Low ≤ lowerBound ∧ High ≥ upperBound` is false there. -/
theorem c1_counterexample :
    exAgap ∈ fvgList exA flagsOther ∧
      retraceTimeValid flagsOther (tod (nth exA 3)) = true ∧
      movedAway exA exAgap 3 = true ∧
      firstRetrace exA flagsOther exAgap = some 3 ∧
      ¬((nth exA 3).Low ≤ lowerBound exAgap ∧ (nth exA 3).High ≥ upperBound exAgap) := by
  decide

/-- C1 as amended: for a candidate bar that passes the time-of-day and
moved-away gates, the tracker emits exactly when, for a Bullish gap, bar
j's Low ≤ upperBound and High ≥ lowerBound (bar j's range meets the gap's
range — the two comparisons are against the opposite boundaries from the
claim's), and for a Bearish gap exactly as the claim states (High ≥
upperBound and Low ≤ lowerBound). -/
theorem retrace_rule_c1 (df : List Candle) (c : ClassFlags) (f : Fvg) (j : Nat)
    (_hf : f ∈ fvgList df c)
    (ht : retraceTimeValid c (tod (nth df j)) = true)
    (hm : movedAway df f j = true) :
    (qualifies df c f j = true ↔
      match f.ftype with
      | FvgType.bullish => (nth df j).Low ≤ upperBound f ∧ (nth df j).High ≥ lowerBound f
      | FvgType.bearish => (nth df j).High ≥ upperBound f ∧ (nth df j).Low ≤ lowerBound f) := by
  have hq : qualifies df c f j = retraceTest df f j := by
    rw [qualifies, ht, hm]
    simp
  rw [hq]
  obtain ⟨ft, fh, fl, fd, fi⟩ := f
  cases ft
  · simp [retraceTest, lowerBound, upperBound, and_comm]
  · simp [retraceTest, lowerBound, upperBound]

/-- C1 witness: the amended rule instantiated at the emission on `exA`. -/
theorem c1_witness :
    qualifies exA flagsOther exAgap 3 = true ↔
      ((nth exA 3).Low ≤ upperBound exAgap ∧ (nth exA 3).High ≥ lowerBound exAgap) :=
  retrace_rule_c1 exA flagsOther exAgap 3 (by decide) (by decide) (by decide)

/-- C2 counterexample: on `exB`, bar 2 exceeds the bullish gap's lowerBound
(High 20 > 10), so the claim's moved-away gate passes for candidate bar 4;
but the code's gate compares against `fvg_low` (= upperBound 20) and fails,
so bar 4 — which passes the time gate and the retrace test — is skipped and
the gap produces no event at all. -/
theorem c2_counterexample :
    exBgap ∈ fvgList exB flagsOther ∧
      (exBgap.fvg_idx + 1 ≤ 2 ∧ 2 < 4 ∧ (nth exB 2).High > lowerBound exBgap) ∧
      movedAway exB exBgap 4 = false ∧
      retraceTimeValid flagsOther (tod (nth exB 4)) = true ∧
      retraceTest exB exBgap 4 = true ∧
      firstRetrace exB flagsOther exBgap = none := by
  decide

/-- C2 as amended: the moved-away gate passes exactly when some bar `k` with
`anchorIndex + 1 ≤ k < j` has, for a Bullish gap, High > upperBound (the
current bar's Low — not the lowerBound the claim names), and for a Bearish
gap, Low < upperBound as the claim states; when no such `k` exists the
candidate fails all three gates and scanning continues. -/
theorem moved_away_c2 (df : List Candle) (c : ClassFlags) (f : Fvg) (j : Nat) :
    (movedAway df f j = true ↔
      ∃ k, f.fvg_idx + 1 ≤ k ∧ k < j ∧
        (match f.ftype with
         | FvgType.bullish => (nth df k).High > upperBound f
         | FvgType.bearish => (nth df k).Low < upperBound f)) ∧
    (movedAway df f j = false → qualifies df c f j = false) := by
  obtain ⟨ft, fh, fl, fd, fi⟩ := f
  constructor
  · rw [movedAway, List.any_eq_true]
    constructor
    · rintro ⟨k, hk, hp⟩
      rw [List.mem_range'_1] at hk
      refine ⟨k, hk.1, by omega, ?_⟩
      cases ft <;> simpa [upperBound] using hp
    · rintro ⟨k, h1, h2, hp⟩
      refine ⟨k, List.mem_range'_1.mpr ⟨h1, by omega⟩, ?_⟩
      cases ft <;> simpa [upperBound] using hp
  · intro hmv
    rw [qualifies, hmv]
    simp

/-- C2 witness: on `exB` the failed gate at bar 4 forces the candidate to be
skipped. -/
theorem c2_witness : qualifies exB flagsOther exBgap 4 = false :=
  (moved_away_c2 exB flagsOther exBgap 4).2 (by decide)

/-- C4: the events of a cycle pair each gap with the result of its own
first-match scan (so at most one event per gap), and a successful scan
returns exactly the least index `j ≥ anchorIndex + 2` passing the
time-of-day, moved-away and retrace gates — every smaller candidate fails. -/
theorem first_match_c4 (df : List Candle) (c : ClassFlags) (f : Fvg) (j : Nat) :
    ((f, j) ∈ detectEvents df c ↔ f ∈ fvgList df c ∧ firstRetrace df c f = some j) ∧
      (firstRetrace df c f = some j →
        f.fvg_idx + 2 ≤ j ∧ j < df.length ∧ qualifies df c f j = true ∧
          ∀ m, f.fvg_idx + 2 ≤ m → m < j → qualifies df c f m = false) := by
  constructor
  · rw [detectEvents, List.mem_filterMap]
    constructor
    · rintro ⟨a, ha, hmap⟩
      rw [Option.map_eq_some'] at hmap
      obtain ⟨j2, hj2, heq⟩ := hmap
      injection heq with e1 e2
      subst e1
      subst e2
      exact ⟨ha, hj2⟩
    · rintro ⟨hf, hr⟩
      refine ⟨f, hf, ?_⟩
      rw [hr]
      rfl
  · intro h
    obtain ⟨h1, h2, h3, h4⟩ :=
      find?_range'_spec (qualifies df c f) (df.length - (f.fvg_idx + 2)) (f.fvg_idx + 2) j h
    refine ⟨h1, by omega, h3, fun m hm1 hm2 => ?_⟩
    have := h4 m hm1 hm2
    simpa using this

/-- C4 witness: on `exA` the single gap's scan returns index 3, in range and
qualifying. -/
theorem c4_witness :
    exAgap.fvg_idx + 2 ≤ 3 ∧ 3 < exA.length ∧ qualifies exA flagsOther exAgap 3 = true :=
  let h := (first_match_c4 exA flagsOther exAgap 3).2 (by decide)
  ⟨h.1, h.2.1, h.2.2.1⟩

theorem fvgAt_mem (df : List Candle) (c : ClassFlags) (i : Nat) (g : Fvg) :
    g ∈ fvgAt df c i ↔
      (fvgTimeValid c (tod (nth df (i - 1))) = true ∧
        (((nth df i).Low > (nth df (i - 2)).High ∧
            g = ⟨FvgType.bullish, (nth df (i - 2)).High, (nth df i).Low,
                  (nth df (i - 1)).Date, i - 1⟩) ∨
         ((nth df i).High < (nth df (i - 2)).Low ∧
            g = ⟨FvgType.bearish, (nth df i).High, (nth df (i - 2)).Low,
                  (nth df (i - 1)).Date, i - 1⟩))) := by
  simp only [fvgAt, List.mem_append, mem_ite_singleton]
  tauto

/-- C3: a gap record belongs to the emitted list exactly when some scan
index `i` in `[2, length)` produces it — bullish iff `curr.Low > (i-2).High`,
bearish iff `curr.High < (i-2).Low`, in both cases gated by the anchor bar's
class-dependent time window — with the boundaries `(prev.High, curr.Low)`
respectively `(curr.High, prev.Low)`; consequently every emitted bullish gap
has lowerBound < upperBound and every bearish gap upperBound < lowerBound
(currHigh < prevLow). -/
theorem gap_emission_c3 (df : List Candle) (c : ClassFlags) (g : Fvg) :
    (g ∈ fvgList df c ↔
      ∃ i, 2 ≤ i ∧ i < df.length ∧ fvgTimeValid c (tod (nth df (i - 1))) = true ∧
        (((nth df i).Low > (nth df (i - 2)).High ∧
            g = ⟨FvgType.bullish, (nth df (i - 2)).High, (nth df i).Low,
                  (nth df (i - 1)).Date, i - 1⟩) ∨
         ((nth df i).High < (nth df (i - 2)).Low ∧
            g = ⟨FvgType.bearish, (nth df i).High, (nth df (i - 2)).Low,
                  (nth df (i - 1)).Date, i - 1⟩))) ∧
    (g ∈ fvgList df c →
      (g.ftype = FvgType.bullish → lowerBound g < upperBound g) ∧
      (g.ftype = FvgType.bearish → upperBound g < lowerBound g)) := by
  constructor
  · rw [fvgList, List.mem_flatMap]
    constructor
    · rintro ⟨i, hi, hg⟩
      rw [List.mem_range'_1] at hi
      rw [fvgAt_mem] at hg
      exact ⟨i, hi.1, by omega, hg.1, hg.2⟩
    · rintro ⟨i, h1, h2, hv, hca⟩
      exact ⟨i, List.mem_range'_1.mpr ⟨h1, by omega⟩, (fvgAt_mem df c i g).mpr ⟨hv, hca⟩⟩
  · intro hg
    rw [fvgList, List.mem_flatMap] at hg
    obtain ⟨i, _, hgi⟩ := hg
    rw [fvgAt_mem] at hgi
    rcases hgi.2 with ⟨hc, rfl⟩ | ⟨hc, rfl⟩
    · exact ⟨(fun _ => by simpa [lowerBound, upperBound] using hc),
        (fun habs => by cases habs)⟩
    · exact ⟨(fun habs => by cases habs),
        (fun _ => by simpa [lowerBound, upperBound] using hc)⟩

/-- C3 witness: the characterization and the boundary invariant at the
concrete bullish gap of `exA`. -/
theorem c3_witness : lowerBound exAgap < upperBound exAgap :=
  ((gap_emission_c3 exA flagsOther exAgap).2 (by decide)).1 (by decide)

end TBot

